import Mathlib

/-!
Verification of the `Phalcon\Messages\Messages` collection
(`src/ext/phalcon/messages/messages.zep.h`).

The repository slice contains only the generated C declaration header
(method table and arginfo); the method bodies of `messages.zep` are not
under `src/`.  Following the spec, each operation below is therefore a
shallow embedding modelled from the spec's own operational description
(section 4.1 of `spec.md`), over the spec's data model: an ordered
sequence `items` of opaque `Message` values plus a single shared
traversal `cursor`.
-/

namespace PhalconMessages

/-- Modelled from the spec: the opaque `Message` contract (the
`Phalcon\Messages\Message` implementation is not under `src/`): an
accessor `getField : Optional String` and a structural serialization
form `toStructural : Record` (an ordered mapping of named values,
represented as an association list). -/
structure Message where
  fieldName : Option String
  structuralForm : List (String × String)
deriving DecidableEq, Repr

/-- The `getField` accessor of the Message contract. -/
def Message.getField (m : Message) : Option String :=
  m.fieldName

/-- The `toStructural` capability of the Message contract. -/
def Message.toStructural (m : Message) : List (String × String) :=
  m.structuralForm

/-- Modelled from the spec: the `MessageCollection` state — an ordered
sequence `items` (insertion order significant, dense integer indices)
and a single collection-global `cursor` used by the sequential
iteration protocol. -/
structure Messages where
  items : List Message
  cursor : Nat
deriving DecidableEq, Repr

/-- Modelled from the spec: `__construct` — `new(initial)`; if `initial`
is omitted the collection starts empty; the cursor starts at 0. -/
def construct (initial : Option (List Message)) : Messages :=
  { items := initial.getD [], cursor := 0 }

/-- Modelled from the spec: `appendMessage(m)` appends to the end,
preserving order. -/
def Messages.appendMessage (c : Messages) (m : Message) : Messages :=
  { c with items := c.items ++ [m] }

/-- Modelled from the spec: `count()` — number of items currently held. -/
def Messages.count (c : Messages) : Nat :=
  c.items.length

/-- Modelled from the spec: `current()` — the item at `cursor`, or
nothing (null-equivalent) if `cursor` is out of bounds.  It is a pure
read: it takes the state and returns only a value, so it cannot mutate
`items` or `cursor`. -/
def Messages.current (c : Messages) : Option Message :=
  c.items[c.cursor]?

/-- Modelled from the spec: `key()` — returns `cursor`, independent of
whether it is valid. -/
def Messages.keyAt (c : Messages) : Nat :=
  c.cursor

/-- Modelled from the spec: `next()` — advances `cursor` by 1, with no
error when this pushes the cursor past the end. -/
def Messages.next (c : Messages) : Messages :=
  { c with cursor := c.cursor + 1 }

/-- Modelled from the spec: `rewind()` — resets `cursor` to 0. -/
def Messages.rewind (c : Messages) : Messages :=
  { c with cursor := 0 }

/-- Modelled from the spec: `valid()` — true iff `0 ≤ cursor < count()`
(the lower bound is inherent to `Nat`). -/
def Messages.valid (c : Messages) : Bool :=
  c.cursor < c.items.length

/-- Modelled from the spec: `offsetExists(k)` — true iff `k` is a
currently valid index into `items` (dense integer indices, the spec's
default assumption). -/
def Messages.offsetExists (c : Messages) (k : Nat) : Bool :=
  k < c.items.length

/-- Modelled from the spec: `offsetGet(k)` — the item at `k`; absence of
a value (`none`) models the `IndexOutOfRange` failure on an absent key. -/
def Messages.offsetGet (c : Messages) (k : Nat) : Option Message :=
  c.items[k]?

/-- Modelled from the spec: `offsetSet(k, m)` — with an existing index
`some k` it replaces that slot's value in place (order unchanged;
`List.set` is the in-place replacement and is a no-op beyond the end,
a case the spec does not define); with the append sentinel `none` it
appends at the end, assigning the next sequential index. -/
def Messages.offsetSet (c : Messages) (k : Option Nat) (m : Message) : Messages :=
  match k with
  | some i => { c with items := c.items.set i m }
  | none => { c with items := c.items ++ [m] }

/-- Modelled from the spec: `offsetUnset(k)` — removes the item at `k`
and re-indexes: all subsequent items shift down by one position, keeping
integer keys dense (`List.eraseIdx` is exactly this re-list removal). -/
def Messages.offsetUnset (c : Messages) (k : Nat) : Messages :=
  { c with items := c.items.eraseIdx k }

/-- Modelled from the spec: `filter(fieldName)` — returns, in original
relative order, every item whose `getField()` equals `fieldName`.  Pure
read: it returns only the sequence, so the collection and cursor are
untouched by construction. -/
def Messages.filterByField (c : Messages) (fieldName : String) : List Message :=
  c.items.filter (fun m => m.getField == some fieldName)

/-- Modelled from the spec: `jsonSerialize()` — maps every item to its
own structural serialization form, preserving order; no JSON encoding
is performed and the state is not touched. -/
def Messages.jsonSerialize (c : Messages) : List (List (String × String)) :=
  c.items.map Message.toStructural

/-- Modelled from the spec: the static `__set_state(group)` factory —
rebuilds a collection from a captured item state, equivalent to
construction with `initial = group`. -/
def set_state (group : List Message) : Messages :=
  construct (some group)

/-- One pass of the sequential iterator protocol from the current
cursor position: while `valid()` holds, read `current()` and call
`next()`; the yields are collected in order. -/
def traverseFrom (c : Messages) : List Message :=
  if _h : c.valid = true then
    match c.current with
    | some m => m :: traverseFrom c.next
    | none => []
  else []
termination_by c.items.length - c.cursor
decreasing_by
  simp only [Messages.valid, decide_eq_true_eq] at _h
  simp only [Messages.next]
  omega

/-- The full traversal of the claimed protocol: `rewind()` first, then
the `valid`/`current`/`next` loop. -/
def traverse (c : Messages) : List Message :=
  traverseFrom c.rewind

theorem traverseFrom_eq_drop_aux :
    ∀ (n : Nat) (c : Messages), c.items.length - c.cursor ≤ n →
      traverseFrom c = c.items.drop c.cursor := by
  intro n
  induction n with
  | zero =>
    intro c hc
    rw [traverseFrom]
    have hlen : c.items.length ≤ c.cursor := by omega
    have hv : ¬ (c.valid = true) := by
      simp only [Messages.valid, decide_eq_true_eq]
      omega
    rw [dif_neg hv, List.drop_eq_nil_of_le hlen]
  | succ n ih =>
    intro c hc
    rw [traverseFrom]
    by_cases hv : c.valid = true
    · have hlt : c.cursor < c.items.length := by
        simpa only [Messages.valid, decide_eq_true_eq] using hv
      have hcur : c.current = some (c.items.get ⟨c.cursor, hlt⟩) := by
        simp [Messages.current, List.getElem?_eq_getElem hlt]
      rw [dif_pos hv, hcur]
      have hrec : traverseFrom c.next = c.next.items.drop c.next.cursor := by
        apply ih
        simp only [Messages.next]
        omega
      rw [hrec]
      simp only [Messages.next]
      rw [List.drop_eq_getElem_cons hlt]
      simp [List.get_eq_getElem]
    · rw [dif_neg hv]
      have hlen : c.items.length ≤ c.cursor := by
        simp only [Messages.valid, decide_eq_true_eq] at hv
        omega
      rw [List.drop_eq_nil_of_le hlen]

theorem traverseFrom_eq_drop (c : Messages) :
    traverseFrom c = c.items.drop c.cursor :=
  traverseFrom_eq_drop_aux (c.items.length - c.cursor) c (Nat.le_refl _)

theorem traverse_eq_items (c : Messages) : traverse c = c.items := by
  rw [traverse, traverseFrom_eq_drop]
  simp [Messages.rewind]

/-- C1: traversing any collection with the sequential iterator protocol
(rewind, then while valid: current, key, next) yields exactly the items
sequence in insertion order, and the number of yields equals `count()`
at the start of the traversal. -/
theorem claim1_traversal_yields_items (c : Messages) :
    traverse c = c.items ∧ (traverse c).length = c.count := by
  refine ⟨traverse_eq_items c, ?_⟩
  rw [traverse_eq_items c]
  rfl

/-- C9: constructing a collection from a sequence S gives `count() =
len(S)`, and construction with the initial argument omitted gives
`count() = 0`. -/
theorem claim9_construct_count (S : List Message) :
    (construct (some S)).count = S.length ∧ (construct none).count = 0 := by
  constructor
  · rfl
  · rfl

/-- C7: `jsonSerialize()` has length `count()`, preserves order, and
its i-th element is the structural form of the i-th item; it reads the
state without changing it and performs no JSON encoding. -/
theorem claim7_jsonSerialize (c : Messages) :
    (c.jsonSerialize).length = c.count ∧
      ∀ i : Nat, (c.jsonSerialize)[i]? = (c.items[i]?).map Message.toStructural := by
  constructor
  · simp [Messages.jsonSerialize, Messages.count]
  · intro i
    simp [Messages.jsonSerialize, List.getElem?_map]

/-- A sample message used by concrete witnesses. -/
def mA : Message :=
  { fieldName := some "email", structuralForm := [("field", "email"), ("message", "bad email")] }

/-- A second sample message used by concrete witnesses. -/
def mB : Message :=
  { fieldName := some "name", structuralForm := [("field", "name"), ("message", "bad name")] }

/-- C2: `filter(fieldName)` returns the subsequence of `items`, in
original relative order (a sublist), of exactly the items whose
`getField()` equals `fieldName`; with no matching item it returns the
empty sequence rather than an error.  As a pure function of the state
it mutates neither `items` nor `cursor`. -/
theorem claim2_filter_subsequence (c : Messages) (fieldName : String) :
    (c.filterByField fieldName).Sublist c.items ∧
      (∀ m, m ∈ c.filterByField fieldName ↔ m ∈ c.items ∧ m.getField = some fieldName) ∧
      ((∀ m ∈ c.items, m.getField ≠ some fieldName) → c.filterByField fieldName = []) := by
  refine ⟨List.filter_sublist c.items, ?_, ?_⟩
  · intro m
    simp [Messages.filterByField, List.mem_filter]
  · intro hnone
    rw [Messages.filterByField, List.filter_eq_nil_iff]
    intro m hm
    simpa using hnone m hm

theorem claim2_filter_subsequence_witness :
    (construct (some [mA, mB])).filterByField "zzz" = [] :=
  (claim2_filter_subsequence (construct (some [mA, mB])) "zzz").2.2 (by decide)

/-- C3: for `k` present in a collection of length `n`, `offsetUnset(k)`
decreases `count()` by exactly 1, keeps the items before `k` at their
keys, moves every item previously at a key `j` in `k+1..n-1` to key
`j-1`, and leaves the integer keys dense (exactly `0..n-2` exist). -/
theorem claim3_offsetUnset_reindex (c : Messages) (k : Nat) (hk : k < c.count) :
    (c.offsetUnset k).count = c.count - 1 ∧
      (∀ j, j < k → (c.offsetUnset k).offsetGet j = c.offsetGet j) ∧
      (∀ j, k + 1 ≤ j → j < c.count → (c.offsetUnset k).offsetGet (j - 1) = c.offsetGet j) ∧
      (∀ j, (c.offsetUnset k).offsetExists j = decide (j < c.count - 1)) := by
  have hk' : k < c.items.length := hk
  refine ⟨?_, ?_, ?_, ?_⟩
  · simp [Messages.offsetUnset, Messages.count, List.length_eraseIdx, hk']
  · intro j hj
    have htk : (c.items.take k).length = k := by
      rw [List.length_take]
      omega
    simp only [Messages.offsetUnset, Messages.offsetGet]
    rw [List.eraseIdx_eq_take_drop_succ]
    rw [List.getElem?_append]
    rw [if_pos (by omega)]
    rw [List.getElem?_take]
    simp [hj]
  · intro j hj1 hj2
    have hj2' : j < c.items.length := hj2
    have htk : (c.items.take k).length = k := by
      rw [List.length_take]
      omega
    simp only [Messages.offsetUnset, Messages.offsetGet]
    rw [List.eraseIdx_eq_take_drop_succ]
    rw [List.getElem?_append_right (by omega)]
    rw [List.getElem?_drop, htk]
    congr 1
    omega
  · intro j
    simp only [Messages.offsetUnset, Messages.offsetExists, Messages.count]
    simp [List.length_eraseIdx, hk']

theorem claim3_offsetUnset_reindex_witness :
    ((construct (some [mA, mB])).offsetUnset 0).count = 1 ∧
      ((construct (some [mA, mB])).offsetUnset 0).offsetGet 0 =
        (construct (some [mA, mB])).offsetGet 1 := by
  have h := claim3_offsetUnset_reindex (construct (some [mA, mB])) 0 (by decide)
  exact ⟨h.1, h.2.2.1 1 (by decide) (by decide)⟩

/-- C4: `offsetSet(k, m)` with `k` already present replaces slot `k` in
place: `count()` is unchanged, every other slot keeps its value and
position, the cursor is untouched, and `offsetGet(k)` afterwards
returns `m`. -/
theorem claim4_offsetSet_replace (c : Messages) (k : Nat) (m : Message) (hk : k < c.count) :
    (c.offsetSet (some k) m).count = c.count ∧
      (c.offsetSet (some k) m).offsetGet k = some m ∧
      (∀ j, j ≠ k → (c.offsetSet (some k) m).offsetGet j = c.offsetGet j) ∧
      (c.offsetSet (some k) m).cursor = c.cursor := by
  have hk' : k < c.items.length := hk
  refine ⟨?_, ?_, ?_, rfl⟩
  · simp [Messages.offsetSet, Messages.count]
  · simp only [Messages.offsetSet, Messages.offsetGet]
    exact List.getElem?_set_eq_of_lt m hk'
  · intro j hj
    simp only [Messages.offsetSet, Messages.offsetGet]
    exact List.getElem?_set_ne (Ne.symm hj)

theorem claim4_offsetSet_replace_witness :
    ((construct (some [mA, mB])).offsetSet (some 0) mB).count = 2 ∧
      ((construct (some [mA, mB])).offsetSet (some 0) mB).offsetGet 0 = some mB ∧
      ((construct (some [mA, mB])).offsetSet (some 0) mB).offsetGet 1 =
        (construct (some [mA, mB])).offsetGet 1 := by
  have h := claim4_offsetSet_replace (construct (some [mA, mB])) 0 mB (by decide)
  exact ⟨h.1, h.2.1, h.2.2.1 1 (by decide)⟩

/-- C6: `current()` returns the item stored at position `cursor` when
`0 ≤ cursor < count()` and `none` (the null-equivalent) when the cursor
is out of bounds; as a pure function of the state it leaves the cursor
unchanged. -/
theorem claim6_current_bounds (c : Messages) :
    (∀ h : c.cursor < c.count, c.current = some (c.items.get ⟨c.cursor, h⟩)) ∧
      (c.count ≤ c.cursor → c.current = none) := by
  constructor
  · intro h
    simp [Messages.current, List.getElem?_eq_getElem (show c.cursor < c.items.length from h)]
  · intro h
    simp only [Messages.current]
    exact List.getElem?_eq_none h

theorem claim6_current_bounds_witness :
    (construct (some [mA, mB])).current = some mA ∧ (construct none).current = none := by
  constructor
  · exact (claim6_current_bounds (construct (some [mA, mB]))).1 (by decide)
  · exact (claim6_current_bounds (construct none)).2 (by decide)

/-- C8: the static `__set_state` factory applied to a collection's
captured item state produces a collection equal to construction with
`initial = group`, with identical contents and identical iteration
order (traversal) to the original. -/
theorem claim8_set_state_roundtrip (c : Messages) :
    set_state c.items = construct (some c.items) ∧
      (set_state c.items).items = c.items ∧
      traverse (set_state c.items) = traverse c := by
  have h2 : (set_state c.items).items = c.items := rfl
  have h3 : traverse (set_state c.items) = traverse c := by
    rw [traverse_eq_items, traverse_eq_items, h2]
  exact ⟨rfl, h2, h3⟩

/-! The call-boundary model for `appendMessage`.  The declaration header
(`src/ext/phalcon/messages/messages.zep.h`, lines 27-29) declares the
parameter with `ZEND_ARG_OBJ_INFO(0, message,
Phalcon\Messages\MessageInterface, 0)`: pass-by-ref 0, an object of
class `Phalcon\Messages\MessageInterface`, allow-null 0.  The engine
enforces that declaration before the method body runs; values that
reach the body are therefore instances of the interface. -/

/-- A runtime value arriving at the call boundary: null, an object
carrying the list of interface/class names it is an instance of, or a
non-object scalar. -/
inductive Val where
  | vnull : Val
  | vobj : List String → Message → Val
  | vscalar : String → Val
deriving DecidableEq, Repr

/-- The `instanceof` test: an object is an instance of `cls` iff `cls`
is among the names it implements; null and scalars are instances of
nothing. -/
def Val.isInstanceOf : Val → String → Bool
  | Val.vobj impls _, cls => impls.contains cls
  | Val.vnull, _ => false
  | Val.vscalar _, _ => false

/-- Shallow embedding of a `ZEND_ARG_OBJ_INFO` entry: pass-by-ref flag,
argument name, required class/interface name, allow-null flag. -/
structure ZendObjArgInfo where
  passByRef : Bool
  argName : String
  className : String
  allowNull : Bool
deriving DecidableEq, Repr

/-- Embedded from `arginfo_phalcon_messages_messages_appendmessage`
(src/ext/phalcon/messages/messages.zep.h lines 27-29):
`ZEND_ARG_OBJ_INFO(0, message, Phalcon\Messages\MessageInterface, 0)`. -/
def arginfo_appendmessage : ZendObjArgInfo :=
  { passByRef := false
    argName := "message"
    className := "Phalcon\\Messages\\MessageInterface"
    allowNull := false }

/-- Modelled from the spec: the missing engine glue ("class registration
and calling-convention glue" is an external collaborator) — the check
the engine performs at the call boundary for an object-typed parameter:
the value must be an instance of the declared class, or null when the
declaration allows null. -/
def acceptsArg (info : ZendObjArgInfo) (v : Val) : Bool :=
  match v with
  | Val.vnull => info.allowNull
  | Val.vobj impls _ => impls.contains info.className
  | Val.vscalar _ => false

/-- `appendMessage` seen from outside: the boundary check of
`arginfo_appendmessage` runs first; only an accepted value is appended
(`none` models the engine's TypeError rejection before the body runs). -/
def appendMessageGuarded (st : List Val) (v : Val) : Option (List Val) :=
  if acceptsArg arginfo_appendmessage v then some (st ++ [v]) else none

/-- A sequence of `appendMessage` calls, each crossing the boundary. -/
def runAppendCalls (st : List Val) : List Val → Option (List Val)
  | [] => some st
  | v :: vs =>
    match appendMessageGuarded st v with
    | some st2 => runAppendCalls st2 vs
    | none => none

theorem acceptsArg_isInstanceOf (v : Val)
    (h : acceptsArg arginfo_appendmessage v = true) :
    v.isInstanceOf arginfo_appendmessage.className = true := by
  cases v with
  | vnull => simp [acceptsArg, arginfo_appendmessage] at h
  | vobj impls m => simpa [acceptsArg, Val.isInstanceOf] using h
  | vscalar s => simp [acceptsArg] at h

theorem runAppendCalls_closed :
    ∀ (vs st0 st : List Val),
      (∀ v ∈ st0, v.isInstanceOf arginfo_appendmessage.className = true) →
      runAppendCalls st0 vs = some st →
      ∀ v ∈ st, v.isInstanceOf arginfo_appendmessage.className = true := by
  intro vs
  induction vs with
  | nil =>
    intro st0 st h0 hrun
    rw [runAppendCalls] at hrun
    cases hrun
    exact h0
  | cons v vs ih =>
    intro st0 st h0 hrun
    rw [runAppendCalls, appendMessageGuarded] at hrun
    by_cases hacc : acceptsArg arginfo_appendmessage v = true
    · rw [if_pos hacc] at hrun
      refine ih (st0 ++ [v]) st ?_ hrun
      intro w hw
      rcases List.mem_append.mp hw with hw1 | hw2
      · exact h0 w hw1
      · have hwv : w = v := by simpa using hw2
        rw [hwv]
        exact acceptsArg_isInstanceOf v hacc
    · rw [if_neg hacc] at hrun
      cases hrun

/-- C10: the `appendMessage` parameter is declared (in the arginfo
table of the header) as a non-nullable
`Phalcon\Messages\MessageInterface` object, so the boundary check
rejects null and every non-conforming value before the body runs, and
every collection state reachable from empty through `appendMessage`
calls contains only `MessageInterface` instances. -/
theorem claim10_appendMessage_boundary :
    arginfo_appendmessage.allowNull = false ∧
      acceptsArg arginfo_appendmessage Val.vnull = false ∧
      (∀ v, acceptsArg arginfo_appendmessage v = true →
        v.isInstanceOf "Phalcon\\Messages\\MessageInterface" = true) ∧
      (∀ vs st, runAppendCalls [] vs = some st →
        ∀ v ∈ st, v.isInstanceOf "Phalcon\\Messages\\MessageInterface" = true) := by
  refine ⟨rfl, rfl, ?_, ?_⟩
  · intro v hv
    exact acceptsArg_isInstanceOf v hv
  · intro vs st hrun
    exact runAppendCalls_closed vs [] st (by intro v hv; cases hv) hrun

theorem claim10_appendMessage_boundary_witness :
    (Val.vobj ["Phalcon\\Messages\\MessageInterface"] mA).isInstanceOf
      "Phalcon\\Messages\\MessageInterface" = true :=
  claim10_appendMessage_boundary.2.2.2
    [Val.vobj ["Phalcon\\Messages\\MessageInterface"] mA]
    [Val.vobj ["Phalcon\\Messages\\MessageInterface"] mA]
    (by decide)
    (Val.vobj ["Phalcon\\Messages\\MessageInterface"] mA)
    (by simp)

end PhalconMessages
